import Mathlib

/-!
# go-powrl: proof-of-work challenges, their verification and the nonce search

A shallow embedding of

* `internal/pow/algorithms.go` (`SHA256Algorithm`),
* `internal/pow/pow.go` (`SupportedAlgorithms`, `PoWSystem`),
* `pow/persistence.go` (`SQLiteChallengeStore`),
* `cmd/server/main.go` (`generateChallengeHandler`),
* `test/basic-run/main.go` (`findSolution`, `worker`),

followed by theorems about them.

Conventions.

* A Go `string` is a Lean `String`; `[]byte(s)` is its UTF-8 encoding, a list of
  byte values.
* Go `int` is `Int`; `uint64` is `Nat` with every operation reduced `% 2 ^ 64`
  at the place where the Go operation wraps.
* A Go call that can fail returns `Except Failure _`: `Failure.error` is a
  returned non-nil `error`, `Failure.panic` is a run-time panic.
* State (the `challenges` table, the entropy supply) is passed explicitly.
* What the database answers to the `DELETE` statement is an argument of
  `DeleteChallenge`: the statement may execute, or `DB.Exec` may report an
  error (database locked, read-only file, I/O failure) and remove nothing.
  That answer is modelled because `PoWSystem.VerifySolution` discards it.
* The library routines used by the program (`crypto/sha256`, `encoding/hex`,
  `strings`, `strconv`, `math/rand`, `crypto/rand`, `database/sql`) are
  modelled by their documented behaviour.
-/

namespace Powrl

/-! ## Failure values -/

/-- Ways in which a Go call fails: a returned `error`, or a panic. -/
inductive Failure where
  | error (msg : String)
  | panic (msg : String)
  deriving DecidableEq, Repr

deriving instance DecidableEq for Except

/-! ## Byte strings -/

/-- UTF-8 encoding of one code point. -/
def utf8Encode (c : Nat) : List Nat :=
  if c < 0x80 then [c]
  else if c < 0x800 then [0xC0 + c / 64, 0x80 + c % 64]
  else if c < 0x10000 then [0xE0 + c / 4096, 0x80 + c / 64 % 64, 0x80 + c % 64]
  else [0xF0 + c / 262144, 0x80 + c / 4096 % 64, 0x80 + c / 64 % 64, 0x80 + c % 64]

/-- Conversion `[]byte(s)`: the bytes of a string. -/
def bytes (s : String) : List Nat :=
  s.data.flatMap fun c => utf8Encode c.toNat

/-! ## `crypto/sha256` (FIPS 180-4), on 32-bit words held in `Nat` -/

namespace sha256

/-- Round constants. -/
def K : List Nat :=
  [0x428a2f98, 0x71374491, 0xb5c0fbcf, 0xe9b5dba5, 0x3956c25b, 0x59f111f1, 0x923f82a4, 0xab1c5ed5] ++
  [0xd807aa98, 0x12835b01, 0x243185be, 0x550c7dc3, 0x72be5d74, 0x80deb1fe, 0x9bdc06a7, 0xc19bf174] ++
  [0xe49b69c1, 0xefbe4786, 0x0fc19dc6, 0x240ca1cc, 0x2de92c6f, 0x4a7484aa, 0x5cb0a9dc, 0x76f988da] ++
  [0x983e5152, 0xa831c66d, 0xb00327c8, 0xbf597fc7, 0xc6e00bf3, 0xd5a79147, 0x06ca6351, 0x14292967] ++
  [0x27b70a85, 0x2e1b2138, 0x4d2c6dfc, 0x53380d13, 0x650a7354, 0x766a0abb, 0x81c2c92e, 0x92722c85] ++
  [0xa2bfe8a1, 0xa81a664b, 0xc24b8b70, 0xc76c51a3, 0xd192e819, 0xd6990624, 0xf40e3585, 0x106aa070] ++
  [0x19a4c116, 0x1e376c08, 0x2748774c, 0x34b0bcb5, 0x391c0cb3, 0x4ed8aa4a, 0x5b9cca4f, 0x682e6ff3] ++
  [0x748f82ee, 0x78a5636f, 0x84c87814, 0x8cc70208, 0x90befffa, 0xa4506ceb, 0xbef9a3f7, 0xc67178f2]

/-- Chaining value: eight 32-bit words. -/
structure State where
  a : Nat
  b : Nat
  c : Nat
  d : Nat
  e : Nat
  f : Nat
  g : Nat
  h : Nat
  deriving DecidableEq, Repr

/-- Initial chaining value. -/
def init : State :=
  ⟨0x6a09e667, 0xbb67ae85, 0x3c6ef372, 0xa54ff53a, 0x510e527f, 0x9b05688c, 0x1f83d9ab, 0x5be0cd19⟩

/-- Rotate a 32-bit word right by `n` bits. -/
def rotr (x n : Nat) : Nat := (x >>> n) ||| ((x <<< (32 - n)) % 2 ^ 32)

/-- Choice function. -/
def Ch (e f g : Nat) : Nat := (e &&& f) ^^^ ((e ^^^ 0xffffffff) &&& g)

/-- Majority function. -/
def Maj (a b c : Nat) : Nat := (a &&& b) ^^^ (a &&& c) ^^^ (b &&& c)

/-- Big sigma 0. -/
def bsig0 (a : Nat) : Nat := rotr a 2 ^^^ rotr a 13 ^^^ rotr a 22

/-- Big sigma 1. -/
def bsig1 (e : Nat) : Nat := rotr e 6 ^^^ rotr e 11 ^^^ rotr e 25

/-- Small sigma 0. -/
def ssig0 (x : Nat) : Nat := rotr x 7 ^^^ rotr x 18 ^^^ (x >>> 3)

/-- Small sigma 1. -/
def ssig1 (x : Nat) : Nat := rotr x 17 ^^^ rotr x 19 ^^^ (x >>> 10)

/-- Message padding: `0x80`, zeros, and the bit length as 8 big-endian bytes. -/
def pad (msg : List Nat) : List Nat :=
  let n := msg.length
  msg ++ [0x80] ++ List.replicate ((119 - n % 64) % 64) 0 ++
    [n * 8 / 2 ^ 56 % 256, n * 8 / 2 ^ 48 % 256, n * 8 / 2 ^ 40 % 256, n * 8 / 2 ^ 32 % 256,
     n * 8 / 2 ^ 24 % 256, n * 8 / 2 ^ 16 % 256, n * 8 / 2 ^ 8 % 256, n * 8 % 256]

/-- Big-endian 32-bit words of a byte list. -/
def toWords : List Nat → List Nat
  | b0 :: b1 :: b2 :: b3 :: rest => (b0 * 2 ^ 24 + b1 * 2 ^ 16 + b2 * 2 ^ 8 + b3) :: toWords rest
  | _ => []

/-- Message schedule extension; `ws` holds the words computed so far, latest first. -/
def extend : Nat → List Nat → List Nat
  | 0, ws => ws
  | k + 1, ws =>
    match ws with
    | _ :: w2 :: _ :: _ :: _ :: _ :: w7 :: _ :: _ :: _ :: _ :: _ :: _ :: _ :: w15 :: w16 :: _ =>
      extend k (((ssig1 w2 + w7 + ssig0 w15 + w16) % 2 ^ 32) :: ws)
    | _ => ws

/-- The 64 schedule words of a 64-byte block. -/
def schedule (block : List Nat) : List Nat :=
  (extend 48 (toWords block).reverse).reverse

/-- One compression round with constant `kw.1` and schedule word `kw.2`. -/
def round (s : State) (kw : Nat × Nat) : State :=
  let t1 := (s.h + bsig1 s.e + Ch s.e s.f s.g + kw.1 + kw.2) % 2 ^ 32
  let t2 := (bsig0 s.a + Maj s.a s.b s.c) % 2 ^ 32
  ⟨(t1 + t2) % 2 ^ 32, s.a, s.b, s.c, (s.d + t1) % 2 ^ 32, s.e, s.f, s.g⟩

/-- Compression of one block into the chaining value. -/
def compress (s : State) (block : List Nat) : State :=
  let r := (K.zip (schedule block)).foldl round s
  ⟨(s.a + r.a) % 2 ^ 32, (s.b + r.b) % 2 ^ 32, (s.c + r.c) % 2 ^ 32, (s.d + r.d) % 2 ^ 32,
   (s.e + r.e) % 2 ^ 32, (s.f + r.f) % 2 ^ 32, (s.g + r.g) % 2 ^ 32, (s.h + r.h) % 2 ^ 32⟩

/-- Compression of the first `k` 64-byte blocks of `l`. -/
def blocks : Nat → State → List Nat → State
  | 0, s, _ => s
  | k + 1, s, l => blocks k (compress s (l.take 64)) (l.drop 64)

/-- Big-endian bytes of a 32-bit word. -/
def be32 (w : Nat) : List Nat := [w / 2 ^ 24 % 256, w / 2 ^ 16 % 256, w / 2 ^ 8 % 256, w % 256]

/-- The function `sha256.Sum256`: the 32-byte SHA-256 digest of `msg`. -/
def Sum256 (msg : List Nat) : List Nat :=
  let p := pad msg
  let s := blocks (p.length / 64) init p
  be32 s.a ++ be32 s.b ++ be32 s.c ++ be32 s.d ++ be32 s.e ++ be32 s.f ++ be32 s.g ++ be32 s.h

/-- The `hash.Hash` object returned by `sha256.New()`, by its contract: it holds
the bytes written since the last reset. -/
structure Digest where
  written : List Nat
  deriving DecidableEq, Repr

/-- Constructor `sha256.New()`. -/
def New : Digest := ⟨[]⟩

/-- Method `Reset`: back to the initial state. -/
def Digest.Reset (_ : Digest) : Digest := ⟨[]⟩

/-- Method `Write(p)`: absorb more data. -/
def Digest.Write (d : Digest) (p : List Nat) : Digest := ⟨d.written ++ p⟩

/-- Method `Sum(b)`: append the digest of the data written so far to `b`; the
state is left as it is. -/
def Digest.Sum (d : Digest) (b : List Nat) : List Nat := b ++ Sum256 d.written

end sha256

/-! ## `encoding/hex` and `strings` -/

namespace hex

/-- The table `hextable`. -/
def hextable : List Char := "0123456789abcdef".data

/-- Two hex digits of one byte: `hextable[v>>4]`, `hextable[v&0x0f]`. -/
def encodeByte (v : Nat) : List Char :=
  [hextable.getD (v / 16 % 16) '0', hextable.getD (v % 16) '0']

/-- The function `hex.EncodeToString`. -/
def EncodeToString (src : List Nat) : String :=
  String.mk (src.flatMap encodeByte)

end hex

namespace strings

/-- The function `strings.Repeat`; it panics on a negative count. -/
def Repeat (s : String) (count : Int) : Except Failure String :=
  if count < 0 then .error (.panic "strings: negative Repeat count")
  else .ok (String.join (List.replicate count.toNat s))

/-- The function `strings.HasPrefix`:
`len(s) >= len(p) && s[:len(p)] == p`. -/
def HasPrefix (s p : String) : Bool :=
  decide (p.length ≤ s.length) && (s.data.take p.length == p.data)

end strings

/-! ## `internal/pow/algorithms.go` -/

/-- The reader `crypto/rand`, as a supply of bytes still to be handed out:
`Read` of `n` bytes takes them from the front, and fails when the supply
cannot serve the request. -/
def cryptoRandRead (n : Nat) (supply : List Nat) : Except Failure (List Nat) × List Nat :=
  if n ≤ supply.length then (.ok ((supply.take n).map (· % 256)), supply.drop n)
  else (.error (.error "crypto/rand: read failed"), supply)

/-- The interface `PoWAlgorithm`. -/
structure PoWAlgorithm where
  GenerateChallengeData : Int → List Nat → Except Failure String × List Nat
  VerifySolution : String → String → Int → Except Failure Bool

namespace SHA256Algorithm

/-- Method `SHA256Algorithm.GenerateChallengeData`: 32 random bytes, hex-encoded. -/
def GenerateChallengeData (_difficulty : Int) (supply : List Nat) :
    Except Failure String × List Nat :=
  match cryptoRandRead 32 supply with
  | (.error err, supply1) => (.error err, supply1)
  | (.ok randomBytes, supply1) => (.ok (hex.EncodeToString randomBytes), supply1)

/-- Method `SHA256Algorithm.VerifySolution`. -/
def VerifySolution (challengeData solution : String) (difficulty : Int) : Except Failure Bool :=
  let hash := sha256.Sum256 (bytes (challengeData ++ solution))
  let hashStr := hex.EncodeToString hash
  match strings.Repeat "0" difficulty with
  | .error err => .error err
  | .ok pfx => .ok (strings.HasPrefix hashStr pfx)

end SHA256Algorithm

/-- The value `SHA256Algorithm{}` seen through the interface `PoWAlgorithm`. -/
def sha256Algorithm : PoWAlgorithm :=
  ⟨SHA256Algorithm.GenerateChallengeData, SHA256Algorithm.VerifySolution⟩

/-- The hex digest that verification inspects: the lowercase hex encoding of
SHA-256 of `seed ++ solution`. -/
def hexDigest (seed solution : String) : String :=
  hex.EncodeToString (sha256.Sum256 (bytes (seed ++ solution)))

/-- Number of leading `'0'` characters of a string. -/
def leadingZeros (s : String) : Nat :=
  (s.data.takeWhile (· == '0')).length

/-! ## `pow/challenge.go` and `pow/persistence.go` -/

/-- The record `Challenge`; `CreatedAt` is a clock reading. -/
structure Challenge where
  ID : String
  Algorithm : String
  Difficulty : Int
  Data : String
  CreatedAt : Nat
  deriving DecidableEq, Repr

/-- The error `sql.ErrNoRows`, returned by `Scan` when the query selects no row. -/
def sqlErrNoRows : Failure := .error "sql: no rows in result set"

/-- The store `SQLiteChallengeStore`: the rows of table `challenges`, in
insertion order. Column `id` is the primary key. -/
structure SQLiteChallengeStore where
  challenges : List Challenge
  deriving DecidableEq, Repr

namespace SQLiteChallengeStore

/-- Method `SaveChallenge`: `INSERT INTO challenges ... VALUES (...)`; the insert
is refused when a row with the same `id` exists. -/
def SaveChallenge (s : SQLiteChallengeStore) (challenge : Challenge) :
    Except Failure Unit × SQLiteChallengeStore :=
  if s.challenges.any (fun c => c.ID == challenge.ID) then
    (.error (.error "UNIQUE constraint failed: challenges.id"), s)
  else (.ok (), ⟨s.challenges ++ [challenge]⟩)

/-- Method `GetChallenge`: `SELECT ... WHERE id = ?`, first row scanned. -/
def GetChallenge (s : SQLiteChallengeStore) (id : String) : Except Failure Challenge :=
  match s.challenges.find? (fun c => c.ID == id) with
  | none => .error sqlErrNoRows
  | some challenge => .ok challenge

/-- Method `DeleteChallenge`: `DELETE FROM challenges WHERE id = ?`, returning
the error of `DB.Exec`. `execErr` is what `DB.Exec` reports for the statement:
`none` when it executes and the rows with that `id` are removed, `some msg` when
it fails, in which case no row is removed and the error is returned. -/
def DeleteChallenge (s : SQLiteChallengeStore) (id : String) (execErr : Option String) :
    Except Failure Unit × SQLiteChallengeStore :=
  match execErr with
  | some msg => (.error (.error msg), s)
  | none => (.ok (), ⟨s.challenges.filter (fun c => !(c.ID == id))⟩)

end SQLiteChallengeStore

/-! ## `internal/pow/pow.go` -/

/-- The struct `PoWSystem`. -/
structure PoWSystem where
  Store : SQLiteChallengeStore
  deriving DecidableEq, Repr

/-- The map `SupportedAlgorithms`: its only key is `"sha256"`. -/
def SupportedAlgorithms (name : String) : Option PoWAlgorithm :=
  if name = "sha256" then some sha256Algorithm else none

/-- Helper `generateUniqueID`: 16 random bytes, hex-encoded. -/
def generateUniqueID (supply : List Nat) : Except Failure String × List Nat :=
  match cryptoRandRead 16 supply with
  | (.error err, supply1) => (.error err, supply1)
  | (.ok randomBytes, supply1) => (.ok (hex.EncodeToString randomBytes), supply1)

namespace PoWSystem

/-- Method `PoWSystem.GenerateChallenge`. Besides the result it returns the
system with its store after the call and what is left of the entropy supply;
`now` is the reading of `time.Now()`. -/
def GenerateChallenge (p : PoWSystem) (supply : List Nat) (now : Nat) (algo : String)
    (difficulty : Int) : Except Failure Challenge × PoWSystem × List Nat :=
  match SupportedAlgorithms algo with
  | none => (.error (.error "unsupported algorithm"), p, supply)
  | some algorithm =>
    match algorithm.GenerateChallengeData difficulty supply with
    | (.error err, supply1) => (.error err, p, supply1)
    | (.ok challengeData, supply1) =>
      match generateUniqueID supply1 with
      | (.error err, supply2) => (.error err, p, supply2)
      | (.ok challengeID, supply2) =>
        let challenge : Challenge := ⟨challengeID, algo, difficulty, challengeData, now⟩
        match p.Store.SaveChallenge challenge with
        | (.error err, store1) => (.error err, ⟨store1⟩, supply2)
        | (.ok _, store1) => (.ok challenge, ⟨store1⟩, supply2)

/-- Method `PoWSystem.VerifySolution`. `deleteErr` is the database's answer to
the `DELETE` statement, should the call reach it. The error returned by
`DeleteChallenge` is dropped, as in the source: only the store it leaves is
kept, and `(isValid, nil)` is returned either way. -/
def VerifySolution (p : PoWSystem) (challengeID solution : String)
    (deleteErr : Option String) : Except Failure Bool × PoWSystem :=
  match p.Store.GetChallenge challengeID with
  | .error err => (.error err, p)
  | .ok challenge =>
    match SupportedAlgorithms challenge.Algorithm with
    | none => (.error (.error "unsupported algorithm"), p)
    | some algorithm =>
      match algorithm.VerifySolution challenge.Data solution challenge.Difficulty with
      | .error err => (.error err, p)
      | .ok isValid =>
        if isValid then (.ok isValid, ⟨(p.Store.DeleteChallenge challengeID deleteErr).2⟩)
        else (.ok isValid, p)

end PoWSystem

/-! ### Two calls of `VerifySolution` sharing one store

A call performs two store statements, `GetChallenge` and then (when the
solution is valid) `DeleteChallenge`; another call may run between them. -/

/-- Progress of one call of `PoWSystem.VerifySolution`. -/
inductive VerifyCall where
  | ready (challengeID solution : String)
  | verified (challengeID : String)
  | returned (result : Except Failure Bool)
  deriving DecidableEq, Repr

/-- One store statement of a call, with the code that follows it up to the
next statement or the return; `deleteErr` is the database's answer to the
call's `DELETE` statement. -/
def VerifyCall.step (c : VerifyCall) (p : PoWSystem) (deleteErr : Option String) :
    VerifyCall × PoWSystem :=
  match c with
  | .ready challengeID solution =>
    match p.Store.GetChallenge challengeID with
    | .error err => (.returned (.error err), p)
    | .ok challenge =>
      match SupportedAlgorithms challenge.Algorithm with
      | none => (.returned (.error (.error "unsupported algorithm")), p)
      | some algorithm =>
        match algorithm.VerifySolution challenge.Data solution challenge.Difficulty with
        | .error err => (.returned (.error err), p)
        | .ok isValid =>
          if isValid then (.verified challengeID, p) else (.returned (.ok isValid), p)
  | .verified challengeID =>
    (.returned (.ok true), ⟨(p.Store.DeleteChallenge challengeID deleteErr).2⟩)
  | .returned result => (.returned result, p)

/-- Two calls and the store they share. -/
structure TwoCalls where
  first : VerifyCall
  second : VerifyCall
  system : PoWSystem
  deriving DecidableEq, Repr

/-- An interleaving is a list of turns: `false` lets the first call perform its
next step, `true` the second. `firstErr` and `secondErr` are the database's
answers to the `DELETE` statement of the first and of the second call. -/
def TwoCalls.run (firstErr secondErr : Option String) : List Bool → TwoCalls → TwoCalls
  | [], t => t
  | false :: turns, t =>
    TwoCalls.run firstErr secondErr turns
      ⟨(t.first.step t.system firstErr).1, t.second, (t.first.step t.system firstErr).2⟩
  | true :: turns, t =>
    TwoCalls.run firstErr secondErr turns
      ⟨t.first, (t.second.step t.system secondErr).1, (t.second.step t.system secondErr).2⟩

/-- The interleavings in which one call finishes before the other starts. -/
def serialTurns (turns : List Bool) : Bool :=
  turns == [false, false, true, true] || turns == [true, true, false, false]

/-! ## `cmd/server/main.go` -/

namespace strconv

/-- The function `strconv.Atoi`: an optional sign, then one or more decimal
digits, the value within the range of `int`. -/
def Atoi (s : String) : Except Failure Int :=
  let negative := s.data.head? == some '-'
  let digits := if s.data.head? == some '-' || s.data.head? == some '+' then s.data.tail else s.data
  if digits.isEmpty || !(digits.all Char.isDigit) then
    .error (.error "strconv.Atoi: invalid syntax")
  else
    let magnitude : Int := digits.foldl (fun acc c => acc * 10 + ((c.toNat : Int) - 48)) 0
    let value := if negative then -magnitude else magnitude
    if value < -(2 ^ 63) || 2 ^ 63 ≤ value then
      .error (.error "strconv.Atoi: value out of range")
    else .ok value

end strconv

/-- What a handler writes to the client. -/
inductive Response where
  | badRequest (body : String)
  | json (fields : List (String × String))
  | crashed (msg : String)
  deriving DecidableEq, Repr

/-- The difficulty that `generateChallengeHandler` passes on: the parsed query
value, replaced by 4 when it does not parse or is not positive. -/
def handlerDifficulty (difficultyStr : String) : Int :=
  match strconv.Atoi difficultyStr with
  | .error _ => 4
  | .ok difficulty => if difficulty ≤ 0 then 4 else difficulty

/-- The handler `generateChallengeHandler`, on query values `algo` and
`difficulty`. -/
def generateChallengeHandler (p : PoWSystem) (supply : List Nat) (now : Nat)
    (algo difficultyStr : String) : Response × PoWSystem × List Nat :=
  let difficulty := handlerDifficulty difficultyStr
  match p.GenerateChallenge supply now algo difficulty with
  | (.error (.error msg), p1, supply1) => (.badRequest msg, p1, supply1)
  | (.error (.panic msg), p1, supply1) => (.crashed msg, p1, supply1)
  | (.ok challenge, p1, supply1) =>
    (.json [("challenge_id", challenge.ID), ("algorithm", challenge.Algorithm),
            ("difficulty", toString challenge.Difficulty), ("data", challenge.Data)],
     p1, supply1)

/-! ## `test/basic-run/main.go` -/

/-- The constant `^uint64(0)`. -/
def maxUint64 : Nat := 2 ^ 64 - 1

/-- Conversion of an integer to `uint64`. -/
def uint64 (x : Int) : Nat := (x % 2 ^ 64).toNat

/-- Conversion of a `uint64` to `int64` (two's complement). -/
def int64 (x : Nat) : Int :=
  if x % 2 ^ 64 < 2 ^ 63 then (x % 2 ^ 64 : Nat) else ((x % 2 ^ 64 : Nat) : Int) - 2 ^ 64

namespace rand

/-- Method `(*rand.Rand).Int63n`: it panics when `n <= 0`, and otherwise returns
a number in `[0, n)`; `draw` is the generator's raw output for this call. -/
def Int63n (n : Int) (draw : Nat) : Except Failure Int :=
  if n ≤ 0 then .error (.panic "invalid argument to Int63n") else .ok ((draw : Int) % n)

end rand

namespace findSolution

/-- The value `nonceRange := maxUint64 / uint64(numWorkers)`. -/
def nonceRange (numWorkers : Int) : Nat := maxUint64 / uint64 numWorkers

/-- The sum `uint64(offset) + nonceRange*uint64(i)`, in `uint64` arithmetic. -/
def startNonceAt (nonceRange : Nat) (i offset : Int) : Nat :=
  (uint64 offset + nonceRange * uint64 i % 2 ^ 64) % 2 ^ 64

/-- The value
`startNonce := uint64(rand.Int63n(int64(nonceRange))) + nonceRange*uint64(i)`. -/
def startNonce (nonceRange : Nat) (i : Int) (draw : Nat) : Except Failure Nat :=
  match rand.Int63n (int64 nonceRange) draw with
  | .error err => .error err
  | .ok offset => .ok (startNonceAt nonceRange i offset)

/-- The loop `for i := 0; i < numWorkers; i++` from index `i` on, with `k`
iterations to go: the `(workerID, startNonce)` pairs of the workers started. -/
def startFrom (nonceRange : Nat) (draws : Nat → Nat) : Nat → Nat → Except Failure (List (Nat × Nat))
  | 0, _ => .ok []
  | k + 1, i =>
    match startNonce nonceRange i (draws i) with
    | .error err => .error err
    | .ok start =>
      match startFrom nonceRange draws k (i + 1) with
      | .error err => .error err
      | .ok rest => .ok ((i, start) :: rest)

/-- The workers started by `findSolution` on a machine with `numWorkers` CPUs;
`draws i` is the generator's raw output at the `i`-th call of `Int63n`. -/
def starts (numWorkers : Int) (draws : Nat → Nat) : Except Failure (List (Nat × Nat)) :=
  startFrom (nonceRange numWorkers) draws numWorkers.toNat 0

end findSolution

/-- How a worker leaves its loop. -/
inductive WorkerExit where
  | stopped
  | rangeExceeded
  | published (solution : String)
  | discarded (solution : String)
  deriving DecidableEq, Repr

/-- What a worker did: the candidates it hashed, in order, and how it left
(`none`: it was still looping when the step budget ran out). -/
structure WorkerRun where
  hashed : List Nat
  exit : Option WorkerExit
  deriving DecidableEq, Repr

/-- The per-candidate test of `worker`, on the hash object it reuses: the result
of `strings.HasPrefix(hashStr, pfx)` and the hash object afterwards. -/
def workerCheck (hash : sha256.Digest) (challengeData pfx : String) (nonce : Nat) :
    Bool × sha256.Digest :=
  let data := challengeData ++ toString nonce
  let hash1 := (hash.Reset).Write (bytes data)
  let hashSum := hash1.Sum []
  let hashStr := hex.EncodeToString hashSum
  (strings.HasPrefix hashStr pfx, hash1)

/-- The loop of `worker`. `stopClosed k` tells whether `stopChan` is closed when
the `k`-th `select` runs, `chanFree k` whether `solutionChan` can take a value
when iteration `k` tries to send. The first argument bounds the number of
iterations modelled. -/
def workerLoop (challengeData pfx : String) (stopClosed chanFree : Nat → Bool)
    (startNonce nonceRange : Nat) : Nat → Nat → Nat → sha256.Digest → WorkerRun
  | 0, _, _, _ => ⟨[], none⟩
  | fuel + 1, k, nonce, hash =>
    if stopClosed k then ⟨[], some .stopped⟩
    else if (startNonce + nonceRange) % 2 ^ 64 ≤ nonce then ⟨[], some .rangeExceeded⟩
    else
      match workerCheck hash challengeData pfx nonce with
      | (true, _) =>
        if chanFree k then ⟨[nonce], some (.published (toString nonce))⟩
        else ⟨[nonce], some (.discarded (toString nonce))⟩
      | (false, hash1) =>
        let rest := workerLoop challengeData pfx stopClosed chanFree startNonce nonceRange
          fuel (k + 1) ((nonce + 1) % 2 ^ 64) hash1
        ⟨nonce :: rest.hashed, rest.exit⟩

/-- The function `worker`. -/
def worker (challengeData pfx : String) (stopClosed chanFree : Nat → Bool)
    (startNonce nonceRange : Nat) (fuel : Nat) : WorkerRun :=
  workerLoop challengeData pfx stopClosed chanFree startNonce nonceRange fuel 0 startNonce
    sha256.New

/-! ## Concrete data used in the evaluated statements -/

/-- A seed as the server issues it: 64 hex characters. -/
def fixtureSeed : String := "049f2f1974fb4689ba86bdadf8fe7f93b7abfac0612584a92cbc3c313ee0c531"

/-- An identifier as the server issues it: 32 hex characters. -/
def fixtureID : String := "000102030405060708090a0b0c0d0e0f"

/-- A stored challenge of difficulty 4 over `fixtureSeed`; `146702` solves it. -/
def fixtureChallenge : Challenge := ⟨fixtureID, "sha256", 4, fixtureSeed, 0⟩

/-- A system whose store holds `fixtureChallenge` only. -/
def fixtureSystem : PoWSystem := ⟨⟨[fixtureChallenge]⟩⟩

/-- The challenge generated from the entropy bytes `0, 1, …, 47` at difficulty 0. -/
def zeroDifficultyChallenge : Challenge :=
  ⟨"202122232425262728292a2b2c2d2e2f", "sha256", 0,
   "000102030405060708090a0b0c0d0e0f101112131415161718191a1b1c1d1e1f", 7⟩

/-! # Theorems -/

/-! ## The SHA-256 model against the standard test vectors -/

set_option maxRecDepth 100000 in
/-- FIPS 180-4 test vectors: the empty message, `abc`, and the 56-byte message
that fills two blocks. -/
theorem sha256.Sum256_test_vectors :
    hex.EncodeToString (sha256.Sum256 (bytes "")) =
      "e3b0c44298fc1c149afbf4c8996fb92427ae41e4649b934ca495991b7852b855" ∧
    hex.EncodeToString (sha256.Sum256 (bytes "abc")) =
      "ba7816bf8f01cfea414140de5dae2223b00361a396177a9cb410ff61f20015ad" ∧
    hex.EncodeToString
        (sha256.Sum256 (bytes "abcdbcdecdefdefgefghfghighijhijkijkljklmklmnlmnomnopnopq")) =
      "248d6a61d20638b8e5c026930c3e6039a33ce45964ff2167f6ecedd419db06c1" := by
  decide

/-! ## Hex digests and leading zeros -/

theorem sha256.length_Sum256 (msg : List Nat) : (sha256.Sum256 msg).length = 32 := by
  simp [sha256.Sum256, sha256.be32]

theorem hex.data_EncodeToString (src : List Nat) :
    (hex.EncodeToString src).data = src.flatMap hex.encodeByte := rfl

theorem hex.length_EncodeToString (src : List Nat) :
    (hex.EncodeToString src).length = 2 * src.length := by
  show (src.flatMap hex.encodeByte).length = 2 * src.length
  induction src with
  | nil => rfl
  | cons b bs ih =>
    rw [List.flatMap_cons, List.length_append, ih]
    simp [hex.encodeByte]
    omega

theorem hex.getD_hextable_mem (n : Nat) (hn : n < 16) :
    hex.hextable.getD n '0' ∈ hex.hextable := by
  have h : ∀ k, k < 16 → hex.hextable.getD k '0' ∈ hex.hextable := by decide
  exact h n hn

theorem hex.mem_EncodeToString (src : List Nat) (c : Char)
    (hc : c ∈ (hex.EncodeToString src).data) : c ∈ hex.hextable := by
  rw [hex.data_EncodeToString, List.mem_flatMap] at hc
  obtain ⟨b, _, hb⟩ := hc
  simp only [hex.encodeByte, List.mem_cons, List.mem_singleton, List.not_mem_nil, or_false] at hb
  rcases hb with rfl | rfl
  · exact hex.getD_hextable_mem _ (Nat.mod_lt _ (by decide))
  · exact hex.getD_hextable_mem _ (Nat.mod_lt _ (by decide))

theorem length_hexDigest (seed solution : String) : (hexDigest seed solution).length = 64 := by
  rw [hexDigest, hex.length_EncodeToString, sha256.length_Sum256]

theorem data_join_append (l : List String) (acc : String) :
    (l.foldl (fun r s => r ++ s) acc).data = acc.data ++ (l.map String.data).flatten := by
  induction l generalizing acc with
  | nil => simp
  | cons x xs ih => simp [ih, String.data_append]

theorem strings.data_Repeat_zero (n : Nat) :
    (String.join (List.replicate n "0")).data = List.replicate n '0' := by
  rw [String.join, data_join_append]
  induction n with
  | zero => rfl
  | succ k ih =>
    simp only [List.replicate_succ, List.map_cons, List.flatten_cons] at ih ⊢
    simp [ih]

theorem strings.Repeat_zero_of_nonneg (difficulty : Int) (hd : 0 ≤ difficulty) :
    strings.Repeat "0" difficulty = .ok (String.join (List.replicate difficulty.toNat "0")) := by
  simp [strings.Repeat, not_lt.mpr hd]

theorem take_eq_replicate_iff (a : Char) (n : Nat) (l : List Char) :
    (n ≤ l.length ∧ l.take n = List.replicate n a) ↔ ∀ i, i < n → l[i]? = some a := by
  induction n generalizing l with
  | zero => simp
  | succ k ih =>
    cases l with
    | nil =>
      simp only [List.length_nil, Nat.le_zero_eq, Nat.succ_ne_zero, false_and, false_iff]
      intro h
      have := h 0 (Nat.succ_pos k)
      simp at this
    | cons x xs =>
      rw [List.take_succ_cons, List.replicate_succ, List.length_cons, Nat.succ_le_succ_iff,
        List.cons.injEq]
      constructor
      · rintro ⟨hlen, rfl, htake⟩ i hi
        cases i with
        | zero => exact List.getElem?_cons_zero
        | succ j =>
          rw [List.getElem?_cons_succ]
          exact (ih xs).mp ⟨hlen, htake⟩ j (Nat.lt_of_succ_lt_succ hi)
      · intro h
        have h0 := h 0 (Nat.succ_pos k)
        simp only [List.getElem?_cons_zero, Option.some.injEq] at h0
        have hrest := (ih xs).mpr (fun i hi => by
          have := h (i + 1) (Nat.succ_lt_succ hi)
          rwa [List.getElem?_cons_succ] at this)
        exact ⟨hrest.1, h0, hrest.2⟩

theorem le_leadingZeros_iff (n : Nat) (l : List Char) :
    n ≤ (l.takeWhile (· == '0')).length ↔ ∀ i, i < n → l[i]? = some '0' := by
  induction n generalizing l with
  | zero => simp
  | succ k ih =>
    cases l with
    | nil =>
      simp only [List.takeWhile_nil, List.length_nil, Nat.le_zero_eq, Nat.succ_ne_zero,
        false_iff]
      intro h
      have := h 0 (Nat.succ_pos k)
      simp at this
    | cons x xs =>
      rw [List.takeWhile_cons]
      by_cases hx : x = '0'
      · subst hx
        simp only [beq_self_eq_true, if_true, List.length_cons, Nat.succ_le_succ_iff]
        rw [ih xs]
        constructor
        · intro h i hi
          cases i with
          | zero => exact List.getElem?_cons_zero
          | succ j =>
            rw [List.getElem?_cons_succ]
            exact h j (Nat.lt_of_succ_lt_succ hi)
        · intro h i hi
          have := h (i + 1) (Nat.succ_lt_succ hi)
          rwa [List.getElem?_cons_succ] at this
      · have hbeq : (x == '0') = false := by simpa using hx
        simp only [hbeq, Bool.false_eq_true, if_false, List.length_nil, Nat.le_zero_eq,
          Nat.succ_ne_zero, false_iff]
        intro h
        have := h 0 (Nat.succ_pos k)
        simp only [List.getElem?_cons_zero, Option.some.injEq] at this
        exact hx this

theorem strings.HasPrefix_zeros_iff (s : String) (n : Nat) :
    strings.HasPrefix s (String.join (List.replicate n "0")) = true ↔
      ∀ i, i < n → s.data[i]? = some '0' := by
  rw [← take_eq_replicate_iff]
  have hlen : (String.join (List.replicate n "0")).length = n := by
    show (String.join (List.replicate n "0")).data.length = n
    rw [strings.data_Repeat_zero, List.length_replicate]
  simp only [strings.HasPrefix, hlen, strings.data_Repeat_zero, Bool.and_eq_true,
    decide_eq_true_eq, beq_iff_eq]
  rfl

theorem SHA256Algorithm.VerifySolution_eq (challengeData solution : String) (difficulty : Int)
    (hd : 0 ≤ difficulty) :
    SHA256Algorithm.VerifySolution challengeData solution difficulty =
      .ok (strings.HasPrefix (hexDigest challengeData solution)
        (String.join (List.replicate difficulty.toNat "0"))) := by
  simp only [SHA256Algorithm.VerifySolution, strings.Repeat_zero_of_nonneg difficulty hd]
  rfl

/-- C1. For every seed, solution and difficulty `d ≥ 1`: the hex digest of
SHA-256 of `seed ++ solution` has 64 characters, all of them lowercase hex
digits; `SHA256Algorithm.VerifySolution` returns (it does not panic); it returns
`true` exactly when each of the first `d` characters of the digest is `'0'`; and
a `true` result implies at least `d` leading `'0'` characters. -/
theorem SHA256Algorithm.verifySolution_true_iff_leading_zeros
    (challengeData solution : String) (difficulty : Int) (hd : 1 ≤ difficulty) :
    (hexDigest challengeData solution).length = 64 ∧
    (∀ c ∈ (hexDigest challengeData solution).data, c ∈ hex.hextable) ∧
    (∃ b, SHA256Algorithm.VerifySolution challengeData solution difficulty = .ok b) ∧
    (SHA256Algorithm.VerifySolution challengeData solution difficulty = .ok true ↔
      ∀ i : Nat, (i : Int) < difficulty → (hexDigest challengeData solution).data[i]? = some '0') ∧
    (SHA256Algorithm.VerifySolution challengeData solution difficulty = .ok true →
      difficulty ≤ (leadingZeros (hexDigest challengeData solution) : Int)) := by
  have h0 : 0 ≤ difficulty := by omega
  have hcast : ∀ i : Nat, (i : Int) < difficulty ↔ i < difficulty.toNat := by
    intro i; omega
  have hiff : SHA256Algorithm.VerifySolution challengeData solution difficulty = .ok true ↔
      ∀ i : Nat, (i : Int) < difficulty →
        (hexDigest challengeData solution).data[i]? = some '0' := by
    rw [SHA256Algorithm.VerifySolution_eq _ _ _ h0, Except.ok.injEq,
      strings.HasPrefix_zeros_iff]
    exact forall_congr' fun i => by rw [hcast]
  refine ⟨length_hexDigest _ _, hex.mem_EncodeToString _, ⟨_, SHA256Algorithm.VerifySolution_eq _ _ _ h0⟩,
    hiff, ?_⟩
  intro htrue
  have hall := hiff.mp htrue
  have hle : difficulty.toNat ≤ leadingZeros (hexDigest challengeData solution) :=
    (le_leadingZeros_iff _ _).mpr (fun i hi => hall i ((hcast i).mpr hi))
  omega

/-- Instance of C1 at the seed `049f…c531`, solution `146702`, difficulty 4. -/
theorem SHA256Algorithm.verifySolution_true_iff_leading_zeros_witness :
    (1 : Int) ≤ 4 ∧
    (SHA256Algorithm.VerifySolution
        "049f2f1974fb4689ba86bdadf8fe7f93b7abfac0612584a92cbc3c313ee0c531" "146702" 4 = .ok true ↔
      ∀ i : Nat, (i : Int) < 4 →
        (hexDigest "049f2f1974fb4689ba86bdadf8fe7f93b7abfac0612584a92cbc3c313ee0c531"
          "146702").data[i]? = some '0') :=
  ⟨by decide,
   (SHA256Algorithm.verifySolution_true_iff_leading_zeros
      "049f2f1974fb4689ba86bdadf8fe7f93b7abfac0612584a92cbc3c313ee0c531" "146702" 4
      (by decide)).2.2.2.1⟩

/-! ## The challenge store and single use -/

theorem SQLiteChallengeStore.GetChallenge_DeleteChallenge (s : SQLiteChallengeStore)
    (id : String) : (s.DeleteChallenge id none).2.GetChallenge id = .error sqlErrNoRows := by
  have hnone : (s.challenges.filter (fun c => !(c.ID == id))).find? (fun c => c.ID == id)
      = none := by
    rw [List.find?_eq_none]
    intro x hx
    simp only [List.mem_filter, Bool.not_eq_true', beq_eq_false_iff_ne, ne_eq] at hx
    simpa using hx.2
  simp only [SQLiteChallengeStore.DeleteChallenge, SQLiteChallengeStore.GetChallenge, hnone]

/-- A `DELETE` that the database refuses returns its error and removes nothing. -/
theorem SQLiteChallengeStore.DeleteChallenge_of_error (s : SQLiteChallengeStore)
    (id msg : String) : s.DeleteChallenge id (some msg) = (.error (.error msg), s) := rfl

theorem PoWSystem.VerifySolution_of_not_found (p : PoWSystem) (challengeID solution : String)
    (deleteErr : Option String)
    (h : p.Store.GetChallenge challengeID = .error sqlErrNoRows) :
    p.VerifySolution challengeID solution deleteErr = (.error sqlErrNoRows, p) := by
  simp only [PoWSystem.VerifySolution, h]

theorem PoWSystem.VerifySolution_of_found (p : PoWSystem) (challengeID solution : String)
    (deleteErr : Option String)
    (challenge : Challenge) (algorithm : PoWAlgorithm) (isValid : Bool)
    (hget : p.Store.GetChallenge challengeID = .ok challenge)
    (halg : SupportedAlgorithms challenge.Algorithm = some algorithm)
    (hver : algorithm.VerifySolution challenge.Data solution challenge.Difficulty = .ok isValid) :
    p.VerifySolution challengeID solution deleteErr =
      if isValid then (.ok true, ⟨(p.Store.DeleteChallenge challengeID deleteErr).2⟩)
      else (.ok false, p) := by
  simp only [PoWSystem.VerifySolution, hget, halg, hver]
  cases isValid <;> rfl

theorem PoWSystem.store_of_VerifySolution_true (p p1 : PoWSystem) (challengeID solution : String)
    (deleteErr : Option String)
    (h : p.VerifySolution challengeID solution deleteErr = (.ok true, p1)) :
    p1 = ⟨(p.Store.DeleteChallenge challengeID deleteErr).2⟩ := by
  unfold PoWSystem.VerifySolution at h
  split at h
  · simp at h
  · split at h
    · simp at h
    · split at h
      · simp at h
      · split at h
        · exact (congrArg Prod.snd h).symm
        · rename_i isValid _ hfalse
          have h1 := congrArg Prod.fst h
          simp only [Except.ok.injEq] at h1
          exact absurd h1 hfalse

/-- When the database refuses the `DELETE`, a valid solution is still answered
with `valid = true` and no error, and the store is as before. -/
theorem PoWSystem.VerifySolution_of_delete_error (p : PoWSystem)
    (challengeID solution msg : String) (challenge : Challenge) (algorithm : PoWAlgorithm)
    (hget : p.Store.GetChallenge challengeID = .ok challenge)
    (halg : SupportedAlgorithms challenge.Algorithm = some algorithm)
    (hver : algorithm.VerifySolution challenge.Data solution challenge.Difficulty = .ok true) :
    p.VerifySolution challengeID solution (some msg) = (.ok true, p) := by
  rw [PoWSystem.VerifySolution_of_found p challengeID solution (some msg) challenge algorithm
    true hget halg hver]
  rfl

/-- C2, amended. If `PoWSystem.VerifySolution id solution` returns `valid = true`
and the `DELETE` statement of that call executed (the database reported no
error, written `none`), then on the resulting store every later
`VerifySolution id s`, whatever the database would answer to its own `DELETE`,
returns the store's not-found error `sql.ErrNoRows` (so neither `valid = true`
nor `valid = false`), and leaves the store as it is. -/
theorem PoWSystem.verifySolution_after_delete_not_found (p p1 : PoWSystem)
    (challengeID solution : String)
    (h : p.VerifySolution challengeID solution none = (.ok true, p1)) (s : String)
    (deleteErr : Option String) :
    p1.VerifySolution challengeID s deleteErr = (.error sqlErrNoRows, p1) := by
  have hp1 := PoWSystem.store_of_VerifySolution_true p p1 challengeID solution none h
  subst hp1
  exact PoWSystem.VerifySolution_of_not_found _ _ _ _
    (SQLiteChallengeStore.GetChallenge_DeleteChallenge _ _)

/-- C3. When the store holds a challenge under `id`, its algorithm is registered
and `solution` fails the algorithm's predicate, `PoWSystem.VerifySolution id
solution` returns `valid = false` without error and leaves the store unchanged:
the challenge is still returned by `GetChallenge`, and a following
`VerifySolution id s` with `s` satisfying the predicate returns `valid = true`.
This holds whatever the database would answer to a `DELETE` in either call. -/
theorem PoWSystem.verifySolution_invalid_keeps_challenge (p : PoWSystem)
    (challengeID solution : String) (deleteErr laterErr : Option String)
    (challenge : Challenge) (algorithm : PoWAlgorithm)
    (hget : p.Store.GetChallenge challengeID = .ok challenge)
    (halg : SupportedAlgorithms challenge.Algorithm = some algorithm)
    (hbad : algorithm.VerifySolution challenge.Data solution challenge.Difficulty = .ok false) :
    p.VerifySolution challengeID solution deleteErr = (.ok false, p) ∧
    (p.VerifySolution challengeID solution deleteErr).2.Store.GetChallenge challengeID
      = .ok challenge ∧
    ∀ s, algorithm.VerifySolution challenge.Data s challenge.Difficulty = .ok true →
      ((p.VerifySolution challengeID solution deleteErr).2.VerifySolution challengeID s
        laterErr).1 = .ok true := by
  have h1 : p.VerifySolution challengeID solution deleteErr = (.ok false, p) := by
    rw [PoWSystem.VerifySolution_of_found p challengeID solution deleteErr challenge algorithm
      false hget halg hbad]
    rfl
  refine ⟨h1, ?_, ?_⟩
  · rw [h1]; exact hget
  · intro s hs
    rw [h1, PoWSystem.VerifySolution_of_found p challengeID s laterErr challenge algorithm true
      hget halg hs]
    rfl

/-! ## Generation -/

/-- C5. For an algorithm name that is not a key of `SupportedAlgorithms`, and any
difficulty, `PoWSystem.GenerateChallenge` returns the error `unsupported
algorithm` and no challenge; the store and the entropy supply are as before (no
seed, no identifier was drawn, nothing was saved). -/
theorem PoWSystem.generateChallenge_unsupported (p : PoWSystem) (supply : List Nat) (now : Nat)
    (algo : String) (difficulty : Int) (halgo : SupportedAlgorithms algo = none) :
    p.GenerateChallenge supply now algo difficulty =
      (.error (.error "unsupported algorithm"), p, supply) := by
  simp only [PoWSystem.GenerateChallenge, halgo]

theorem SupportedAlgorithms_eq_none_iff (algo : String) :
    SupportedAlgorithms algo = none ↔ algo ≠ "sha256" := by
  unfold SupportedAlgorithms
  split <;> simp_all

theorem SQLiteChallengeStore.SaveChallenge_of_fresh (s : SQLiteChallengeStore)
    (challenge : Challenge) (h : s.GetChallenge challenge.ID = .error sqlErrNoRows) :
    s.SaveChallenge challenge = (.ok (), ⟨s.challenges ++ [challenge]⟩) := by
  unfold SQLiteChallengeStore.GetChallenge at h
  split at h
  · rename_i hnone
    have hany : s.challenges.any (fun c => c.ID == challenge.ID) = false := by
      rw [List.find?_eq_none] at hnone
      rw [List.any_eq_false]
      exact hnone
    simp only [SQLiteChallengeStore.SaveChallenge, hany, Bool.false_eq_true, if_false]
  · simp at h

theorem handlerDifficulty_pos (difficultyStr : String) : 0 < handlerDifficulty difficultyStr := by
  unfold handlerDifficulty
  split
  · decide
  · split
    · decide
    · omega

theorem generateChallengeHandler_state (p : PoWSystem) (supply : List Nat) (now : Nat)
    (algo difficultyStr : String) :
    (generateChallengeHandler p supply now algo difficultyStr).2 =
      (p.GenerateChallenge supply now algo (handlerDifficulty difficultyStr)).2 := by
  dsimp only [generateChallengeHandler]
  generalize p.GenerateChallenge supply now algo (handlerDifficulty difficultyStr) = r
  rcases r with ⟨(⟨msg⟩ | ⟨msg⟩) | challenge, p1, supply1⟩ <;> rfl

set_option maxRecDepth 100000 in
/-- Evaluation: `146702` solves `fixtureSeed` at difficulty 4, `146703` does not. -/
theorem fixture_solutions :
    SHA256Algorithm.VerifySolution fixtureSeed "146702" 4 = .ok true ∧
    SHA256Algorithm.VerifySolution fixtureSeed "146703" 4 = .ok false := by
  decide

set_option maxRecDepth 100000 in
/-- C2, refuted as stated: on `fixtureSystem` the solution `146702` is submitted
for `fixtureID` while the database refuses the `DELETE` (`database is locked`).
The call returns `valid = true`, the error is dropped and the challenge is
still stored; the same submission on the resulting store returns `valid = true`
again, not the not-found error. -/
theorem PoWSystem.verifySolution_valid_twice_when_delete_fails :
    fixtureSystem.VerifySolution fixtureID "146702" (some "database is locked") =
      (.ok true, fixtureSystem) ∧
    ((fixtureSystem.VerifySolution fixtureID "146702" (some "database is locked")).2.VerifySolution
        fixtureID "146702" none).1 = .ok true := by
  decide

set_option maxRecDepth 100000 in
/-- Instance of the amended C2: after `146702` is accepted for `fixtureID` and
the row deleted, a repeated submission is answered with `sql.ErrNoRows`. -/
theorem PoWSystem.verifySolution_after_delete_not_found_witness :
    fixtureSystem.VerifySolution fixtureID "146702" none = (.ok true, ⟨⟨[]⟩⟩) ∧
    (⟨⟨[]⟩⟩ : PoWSystem).VerifySolution fixtureID "146702" none =
      (.error sqlErrNoRows, ⟨⟨[]⟩⟩) :=
  ⟨by decide,
   PoWSystem.verifySolution_after_delete_not_found fixtureSystem ⟨⟨[]⟩⟩ fixtureID "146702"
     (by decide) "146702" none⟩

/-- Instance of C3: `146703` is rejected for `fixtureID`, the store is unchanged,
and `146702` is accepted afterwards. -/
theorem PoWSystem.verifySolution_invalid_keeps_challenge_witness :
    fixtureSystem.VerifySolution fixtureID "146703" none = (.ok false, fixtureSystem) ∧
    ((fixtureSystem.VerifySolution fixtureID "146703" none).2.VerifySolution fixtureID "146702"
      none).1 = .ok true :=
  have h := PoWSystem.verifySolution_invalid_keeps_challenge fixtureSystem fixtureID "146703"
    none none fixtureChallenge sha256Algorithm rfl rfl fixture_solutions.2
  ⟨h.1, h.2.2 "146702" fixture_solutions.1⟩

/-- Instance of C5 at the algorithm name `md5`. -/
theorem PoWSystem.generateChallenge_unsupported_witness :
    SupportedAlgorithms "md5" = none ∧
    fixtureSystem.GenerateChallenge (List.range 48) 7 "md5" 4 =
      (.error (.error "unsupported algorithm"), fixtureSystem, List.range 48) :=
  ⟨rfl, PoWSystem.generateChallenge_unsupported fixtureSystem (List.range 48) 7 "md5" 4 rfl⟩

/-- C4, refuted as stated: at the registered algorithm `sha256` and difficulty 0
`PoWSystem.GenerateChallenge` succeeds: it returns a challenge of difficulty 0
and the store, empty before, holds that challenge afterwards. -/
theorem PoWSystem.generateChallenge_zero_difficulty_accepted :
    (SupportedAlgorithms "sha256").isSome = true ∧ (0 : Int) ≤ 0 ∧
    (⟨⟨[]⟩⟩ : PoWSystem).GenerateChallenge (List.range 48) 7 "sha256" 0 =
      (.ok zeroDifficultyChallenge, ⟨⟨[zeroDifficultyChallenge]⟩⟩, []) := by
  decide

/-- C4, amended. `PoWSystem.GenerateChallenge` does not inspect the difficulty:
for a registered algorithm and any difficulty, also one that is zero or
negative, when the entropy supply holds the 48 bytes needed and the new
identifier is not in the store, it returns the challenge carrying that
difficulty and appends it to the store. The requirement `difficulty > 0` is
met by the caller: `generateChallengeHandler` passes a positive difficulty (the
query value, or 4 when that does not parse or is not positive). -/
theorem PoWSystem.generateChallenge_difficulty_unchecked (p : PoWSystem) (supply : List Nat)
    (now : Nat) (algo : String) (difficulty : Int) (difficultyStr : String)
    (halgo : (SupportedAlgorithms algo).isSome = true)
    (hsupply : 48 ≤ supply.length)
    (hfresh : p.Store.GetChallenge
      (hex.EncodeToString (((supply.drop 32).take 16).map (· % 256))) = .error sqlErrNoRows) :
    p.GenerateChallenge supply now algo difficulty =
      (.ok ⟨hex.EncodeToString (((supply.drop 32).take 16).map (· % 256)), algo, difficulty,
            hex.EncodeToString ((supply.take 32).map (· % 256)), now⟩,
       ⟨⟨p.Store.challenges ++
          [⟨hex.EncodeToString (((supply.drop 32).take 16).map (· % 256)), algo, difficulty,
            hex.EncodeToString ((supply.take 32).map (· % 256)), now⟩]⟩⟩,
       (supply.drop 32).drop 16) ∧
    0 < handlerDifficulty difficultyStr ∧
    (generateChallengeHandler p supply now algo difficultyStr).2 =
      (p.GenerateChallenge supply now algo (handlerDifficulty difficultyStr)).2 := by
  have hname : algo = "sha256" := by
    by_contra hne
    rw [(SupportedAlgorithms_eq_none_iff algo).mpr hne] at halgo
    simp at halgo
  subst hname
  have h32 : 32 ≤ supply.length := by omega
  have h16 : 16 ≤ (supply.drop 32).length := by rw [List.length_drop]; omega
  refine ⟨?_, handlerDifficulty_pos _, ?_⟩
  · have hsave := SQLiteChallengeStore.SaveChallenge_of_fresh p.Store
      ⟨hex.EncodeToString (((supply.drop 32).take 16).map (· % 256)), "sha256", difficulty,
        hex.EncodeToString ((supply.take 32).map (· % 256)), now⟩ hfresh
    simp only [PoWSystem.GenerateChallenge, SupportedAlgorithms, if_true, sha256Algorithm,
      SHA256Algorithm.GenerateChallengeData, cryptoRandRead, h32, generateUniqueID, h16, hsave]
  · exact generateChallengeHandler_state p supply now "sha256" difficultyStr

/-- Instance of the amended C4: difficulty `-3` is accepted and stored, while the
handler turns the query value `-3` into difficulty 4. -/
theorem PoWSystem.generateChallenge_difficulty_unchecked_witness :
    ((⟨⟨[]⟩⟩ : PoWSystem).GenerateChallenge (List.range 48) 7 "sha256" (-3)).1 =
      .ok ⟨"202122232425262728292a2b2c2d2e2f", "sha256", -3,
           "000102030405060708090a0b0c0d0e0f101112131415161718191a1b1c1d1e1f", 7⟩ ∧
    handlerDifficulty "-3" = 4 :=
  ⟨(congrArg Prod.fst (PoWSystem.generateChallenge_difficulty_unchecked ⟨⟨[]⟩⟩ (List.range 48) 7
      "sha256" (-3) "-3" (by decide) (by decide) (by decide)).1).trans (by decide),
   by decide⟩

/-! ## Two calls of `VerifySolution` on one store -/

/-- Running the two steps of a call one after the other is
`PoWSystem.VerifySolution`. -/
theorem VerifyCall.step_step_eq_VerifySolution (p : PoWSystem) (challengeID solution : String)
    (deleteErr : Option String) :
    ((VerifyCall.step (.ready challengeID solution) p deleteErr).1.step
        (VerifyCall.step (.ready challengeID solution) p deleteErr).2 deleteErr) =
      (.returned (p.VerifySolution challengeID solution deleteErr).1,
       (p.VerifySolution challengeID solution deleteErr).2) := by
  cases hget : p.Store.GetChallenge challengeID with
  | error err => simp only [VerifyCall.step, PoWSystem.VerifySolution, hget]
  | ok challenge =>
    cases halg : SupportedAlgorithms challenge.Algorithm with
    | none => simp only [VerifyCall.step, PoWSystem.VerifySolution, hget, halg]
    | some algorithm =>
      cases hver : algorithm.VerifySolution challenge.Data solution challenge.Difficulty with
      | error err => simp only [VerifyCall.step, PoWSystem.VerifySolution, hget, halg, hver]
      | ok isValid =>
        cases isValid <;>
          simp [VerifyCall.step, PoWSystem.VerifySolution, hget, halg, hver]

theorem VerifyCall.step_ready_of_valid (p : PoWSystem) (challengeID solution : String)
    (deleteErr : Option String) (challenge : Challenge) (algorithm : PoWAlgorithm)
    (hget : p.Store.GetChallenge challengeID = .ok challenge)
    (halg : SupportedAlgorithms challenge.Algorithm = some algorithm)
    (hver : algorithm.VerifySolution challenge.Data solution challenge.Difficulty = .ok true) :
    VerifyCall.step (.ready challengeID solution) p deleteErr = (.verified challengeID, p) := by
  simp only [VerifyCall.step, hget, halg, hver, if_true]

theorem VerifyCall.step_ready_of_deleted (p : PoWSystem) (challengeID solution : String)
    (deleteErr : Option String) :
    VerifyCall.step (.ready challengeID solution)
        ⟨(p.Store.DeleteChallenge challengeID none).2⟩ deleteErr =
      (.returned (.error sqlErrNoRows), ⟨(p.Store.DeleteChallenge challengeID none).2⟩) := by
  simp only [VerifyCall.step, SQLiteChallengeStore.GetChallenge_DeleteChallenge]

theorem VerifyCall.step_verified (p : PoWSystem) (challengeID : String)
    (deleteErr : Option String) :
    VerifyCall.step (.verified challengeID) p deleteErr =
      (.returned (.ok true), ⟨(p.Store.DeleteChallenge challengeID deleteErr).2⟩) := rfl

theorem VerifyCall.step_returned (p : PoWSystem) (result : Except Failure Bool)
    (deleteErr : Option String) :
    VerifyCall.step (.returned result) p deleteErr = (.returned result, p) := rfl

theorem turns_of_counts (turns : List Bool) (hf : turns.count false = 2)
    (ht : turns.count true = 2) :
    turns = [false, false, true, true] ∨ turns = [true, true, false, false] ∨
    turns = [false, true, false, true] ∨ turns = [false, true, true, false] ∨
    turns = [true, false, false, true] ∨ turns = [true, false, true, false] := by
  have hlen : ∀ l : List Bool, l.length = l.count false + l.count true := by
    intro l
    induction l with
    | nil => rfl
    | cons b bs ih =>
      rw [List.length_cons, ih, List.count_cons, List.count_cons]
      cases b <;> simp <;> omega
  have hlen : turns.length = 4 := by rw [hlen turns, hf, ht]
  match turns, hlen with
  | [a, b, c, d], _ =>
    revert hf ht
    cases a <;> cases b <;> cases c <;> cases d <;> decide

set_option maxRecDepth 100000 in
/-- C7, refuted as stated: on `fixtureSystem`, two calls of `VerifySolution` for
`fixtureID` with the solution `146702`, interleaved as get, get, delete, delete
(both `DELETE` statements executing), both return `valid = true`. -/
theorem TwoCalls.both_calls_succeed :
    TwoCalls.run none none [false, true, false, true]
        ⟨.ready fixtureID "146702", .ready fixtureID "146702", fixtureSystem⟩ =
      ⟨.returned (.ok true), .returned (.ok true), ⟨⟨[]⟩⟩⟩ := by
  decide

/-- C7, amended. For a stored challenge and a solution satisfying its predicate,
two calls of `VerifySolution` for that identifier and solution, each a
`GetChallenge` step followed by a `DeleteChallenge` step: in the two
interleavings where one call finishes before the other starts, provided the
`DELETE` statement of the earlier call executes (the database reports no
error, written `none`), the earlier call returns `valid = true` and the later
one the not-found error, so at most one succeeds; in the four interleavings
where both `GetChallenge` steps come before both `DeleteChallenge` steps, both
calls return `valid = true`. -/
theorem TwoCalls.at_most_one_success_iff_serial (p : PoWSystem) (challengeID solution : String)
    (firstErr secondErr : Option String)
    (challenge : Challenge) (algorithm : PoWAlgorithm)
    (hget : p.Store.GetChallenge challengeID = .ok challenge)
    (halg : SupportedAlgorithms challenge.Algorithm = some algorithm)
    (hver : algorithm.VerifySolution challenge.Data solution challenge.Difficulty = .ok true)
    (turns : List Bool) (hf : turns.count false = 2) (ht : turns.count true = 2) :
    (turns = [false, false, true, true] → firstErr = none →
      (TwoCalls.run firstErr secondErr turns
          ⟨.ready challengeID solution, .ready challengeID solution, p⟩).first
        = .returned (.ok true) ∧
      (TwoCalls.run firstErr secondErr turns
          ⟨.ready challengeID solution, .ready challengeID solution, p⟩).second
        = .returned (.error sqlErrNoRows)) ∧
    (turns = [true, true, false, false] → secondErr = none →
      (TwoCalls.run firstErr secondErr turns
          ⟨.ready challengeID solution, .ready challengeID solution, p⟩).first
        = .returned (.error sqlErrNoRows) ∧
      (TwoCalls.run firstErr secondErr turns
          ⟨.ready challengeID solution, .ready challengeID solution, p⟩).second
        = .returned (.ok true)) ∧
    (serialTurns turns = false →
      (TwoCalls.run firstErr secondErr turns
          ⟨.ready challengeID solution, .ready challengeID solution, p⟩).first
        = .returned (.ok true) ∧
      (TwoCalls.run firstErr secondErr turns
          ⟨.ready challengeID solution, .ready challengeID solution, p⟩).second
        = .returned (.ok true)) := by
  have hready := fun e => VerifyCall.step_ready_of_valid p challengeID solution e challenge
    algorithm hget halg hver
  have hgone := VerifyCall.step_ready_of_deleted p challengeID solution
  rcases turns_of_counts turns hf ht with h | h | h | h | h | h <;> subst h <;>
    refine ⟨?_, ?_, ?_⟩ <;> intro hturns <;>
    first
      | exact absurd hturns (by decide)
      | (intro hexec
         subst hexec
         simp only [TwoCalls.run, hready, hgone, VerifyCall.step_verified,
           VerifyCall.step_returned, and_self])
      | simp only [TwoCalls.run, hready, hgone, VerifyCall.step_verified,
          VerifyCall.step_returned, and_self]

/-- Instance of the amended C7 on `fixtureSystem`: served one after the other,
the first call's `DELETE` executing, the first call succeeds and the second
gets `sql.ErrNoRows`. -/
theorem TwoCalls.at_most_one_success_iff_serial_witness :
    (TwoCalls.run none none [false, false, true, true]
        ⟨.ready fixtureID "146702", .ready fixtureID "146702", fixtureSystem⟩).first
      = .returned (.ok true) ∧
    (TwoCalls.run none none [false, false, true, true]
        ⟨.ready fixtureID "146702", .ready fixtureID "146702", fixtureSystem⟩).second
      = .returned (.error sqlErrNoRows) :=
  (TwoCalls.at_most_one_success_iff_serial fixtureSystem fixtureID "146702" none none
    fixtureChallenge sha256Algorithm rfl rfl fixture_solutions.1 [false, false, true, true]
    (by decide) (by decide)).1 rfl rfl

/-! ## The nonce search: arithmetic of `findSolution` -/

theorem uint64_of_nonneg (x : Int) (h0 : 0 ≤ x) (h1 : x < 2 ^ 64) : uint64 x = x.toNat := by
  unfold uint64
  omega

theorem int64_of_lt (x : Nat) (h : x < 2 ^ 63) : int64 x = x := by
  unfold int64
  split <;> omega

theorem findSolution.nonceRange_eq (n : Int) (h1 : 1 ≤ n) (h2 : n < 2 ^ 63) :
    findSolution.nonceRange n = (2 ^ 64 - 1) / n.toNat := by
  rw [findSolution.nonceRange, maxUint64, uint64_of_nonneg n (by omega) (by omega)]

theorem findSolution.nonceRange_mul_le (n : Int) (h1 : 1 ≤ n) (h2 : n < 2 ^ 63) :
    findSolution.nonceRange n * n.toNat ≤ 2 ^ 64 - 1 := by
  rw [findSolution.nonceRange_eq n h1 h2]
  exact Nat.div_mul_le_self _ _

theorem findSolution.nonceRange_pos (n : Int) (h1 : 1 ≤ n) (h2 : n < 2 ^ 63) :
    0 < findSolution.nonceRange n := by
  rw [findSolution.nonceRange_eq n h1 h2]
  exact Nat.div_pos (by omega) (by omega)

theorem findSolution.nonceRange_lt (n : Int) (h1 : 2 ≤ n) (h2 : n < 2 ^ 63) :
    findSolution.nonceRange n < 2 ^ 63 := by
  rw [findSolution.nonceRange_eq n (by omega) h2]
  have h : (2 ^ 64 - 1) / n.toNat ≤ (2 ^ 64 - 1) / 2 :=
    Nat.div_le_div_left (by omega) (by decide)
  have h2 : (2 ^ 64 - 1) / 2 < 2 ^ 63 := by decide
  omega

theorem findSolution.startNonceAt_eq (n i offset : Int) (hn1 : 1 ≤ n) (hn2 : n < 2 ^ 63)
    (hi0 : 0 ≤ i) (hi : i < n) (ho0 : 0 ≤ offset)
    (ho : offset < findSolution.nonceRange n) :
    findSolution.startNonceAt (findSolution.nonceRange n) i offset =
      findSolution.nonceRange n * i.toNat + offset.toNat ∧
    findSolution.nonceRange n * i.toNat + offset.toNat <
      findSolution.nonceRange n * (i.toNat + 1) ∧
    findSolution.nonceRange n * (i.toNat + 1) ≤ 2 ^ 64 - 1 := by
  have hle := findSolution.nonceRange_mul_le n hn1 hn2
  have hstep : findSolution.nonceRange n * (i.toNat + 1) ≤
      findSolution.nonceRange n * n.toNat := Nat.mul_le_mul_left _ (by omega)
  have hexp : findSolution.nonceRange n * (i.toNat + 1) =
      findSolution.nonceRange n * i.toNat + findSolution.nonceRange n := by ring
  have hR : findSolution.nonceRange n < 2 ^ 64 := by
    have := Nat.le_mul_of_pos_right (findSolution.nonceRange n) (show 0 < n.toNat by omega)
    omega
  refine ⟨?_, by omega, by omega⟩
  rw [findSolution.startNonceAt, uint64_of_nonneg offset ho0 (by omega),
    uint64_of_nonneg i hi0 (by omega)]
  omega

/-- The starting nonce of worker `i` of `n ≥ 2` workers: the bound handed to
`Int63n` is positive, and the start is `R*i + offset` with `offset < R`, without
wrapping, inside `[R*i, R*(i+1))`. -/
theorem findSolution.startNonce_in_own_range (n i : Int) (draw : Nat) (hn1 : 2 ≤ n)
    (hn2 : n < 2 ^ 63) (hi0 : 0 ≤ i) (hi : i < n) :
    0 < int64 (findSolution.nonceRange n) ∧
    ∃ offset : Nat, offset < findSolution.nonceRange n ∧
      rand.Int63n (int64 (findSolution.nonceRange n)) draw = .ok (offset : Int) ∧
      findSolution.startNonce (findSolution.nonceRange n) i draw =
        .ok (findSolution.nonceRange n * i.toNat + offset) ∧
      findSolution.nonceRange n * i.toNat + offset <
        findSolution.nonceRange n * (i.toNat + 1) ∧
      findSolution.nonceRange n * (i.toNat + 1) ≤ 2 ^ 64 - 1 := by
  have hpos := findSolution.nonceRange_pos n (by omega) hn2
  have hlt := findSolution.nonceRange_lt n hn1 hn2
  have hint : int64 (findSolution.nonceRange n) = findSolution.nonceRange n :=
    int64_of_lt _ hlt
  have hmod : ((draw : Int) % (findSolution.nonceRange n : Int)) =
      ((draw % findSolution.nonceRange n : Nat) : Int) := by
    push_cast
    rfl
  have hdraw : rand.Int63n (int64 (findSolution.nonceRange n)) draw =
      .ok ((draw % findSolution.nonceRange n : Nat) : Int) := by
    have hnot : ¬ ((findSolution.nonceRange n : Int) ≤ 0) := by omega
    simp only [rand.Int63n, hint, hnot, if_false, hmod]
  have hoff : draw % findSolution.nonceRange n < findSolution.nonceRange n :=
    Nat.mod_lt _ hpos
  have hat := findSolution.startNonceAt_eq n i ((draw % findSolution.nonceRange n : Nat) : Int)
    (by omega) hn2 hi0 hi (by omega) (by omega)
  refine ⟨by omega, draw % findSolution.nonceRange n, hoff, hdraw, ?_, ?_, hat.2.2⟩
  · simp only [findSolution.startNonce, hdraw, hat.1, Int.toNat_ofNat]
  · simpa using hat.2.1

/-- C8, evaluated at one worker: `nonceRange` is `2^64 - 1`, its conversion
`int64(nonceRange)` is `-1`, so `rand.Int63n` panics and `findSolution` starts no
worker. -/
theorem findSolution.single_worker_panics :
    findSolution.nonceRange 1 = 2 ^ 64 - 1 ∧
    int64 (findSolution.nonceRange 1) = -1 ∧
    ∀ draws, findSolution.starts 1 draws = .error (.panic "invalid argument to Int63n") :=
  ⟨by decide, by decide, fun _ => rfl⟩

/-! ## The nonce search: `worker` -/

theorem workerCheck_fst (hash : sha256.Digest) (challengeData pfx : String) (nonce : Nat) :
    (workerCheck hash challengeData pfx nonce).1 =
      strings.HasPrefix (hexDigest challengeData (toString nonce)) pfx := by
  simp only [workerCheck, sha256.Digest.Reset, sha256.Digest.Write, sha256.Digest.Sum,
    List.nil_append, hexDigest]

theorem workerLoop_published (challengeData pfx : String) (stopClosed chanFree : Nat → Bool)
    (startNonce nonceRange fuel : Nat) :
    ∀ (k nonce : Nat) (hash : sha256.Digest) (solution : String),
      (workerLoop challengeData pfx stopClosed chanFree startNonce nonceRange fuel k nonce
          hash).exit = some (.published solution) →
      ∃ m : Nat, solution = toString m ∧
        strings.HasPrefix (hexDigest challengeData (toString m)) pfx = true := by
  induction fuel with
  | zero =>
    intro k nonce hash solution h
    simp [workerLoop] at h
  | succ fuel ih =>
    intro k nonce hash solution h
    unfold workerLoop at h
    split at h
    · simp at h
    · split at h
      · simp at h
      · split at h
        · rename_i hcheck
          have hfst := workerCheck_fst hash challengeData pfx nonce
          rw [hcheck] at hfst
          split at h
          · simp only [Option.some.injEq, WorkerExit.published.injEq] at h
            exact ⟨nonce, h.symm, hfst.symm⟩
          · simp at h
        · exact ih _ _ _ _ h

theorem workerLoop_hashed_window (challengeData pfx : String)
    (stopClosed chanFree : Nat → Bool) (startNonce nonceRange fuel : Nat)
    (hbound : startNonce + nonceRange < 2 ^ 64) :
    ∀ (k nonce : Nat) (hash : sha256.Digest) (c : Nat),
      c ∈ (workerLoop challengeData pfx stopClosed chanFree startNonce nonceRange fuel k nonce
          hash).hashed →
      nonce ≤ c ∧ c < startNonce + nonceRange := by
  induction fuel with
  | zero =>
    intro k nonce hash c h
    simp [workerLoop] at h
  | succ fuel ih =>
    intro k nonce hash c h
    unfold workerLoop at h
    split at h
    · simp at h
    · split at h
      · simp at h
      · rename_i hlt
        rw [Nat.mod_eq_of_lt hbound, Nat.not_le] at hlt
        split at h
        · split at h <;>
            (simp only [List.mem_singleton] at h; subst h; exact ⟨Nat.le_refl _, hlt⟩)
        · simp only [List.mem_cons] at h
          rcases h with rfl | h
          · exact ⟨Nat.le_refl _, hlt⟩
          · have hnext : (nonce + 1) % 2 ^ 64 = nonce + 1 := Nat.mod_eq_of_lt (by omega)
            rw [hnext] at h
            have := ih _ _ _ _ h
            omega

/-- The candidates a worker hashes lie in the window
`[startNonce, startNonce + nonceRange)`, which begins at the worker's random
start, not at the beginning of its sub-range. -/
theorem worker_hashed_window (challengeData pfx : String) (stopClosed chanFree : Nat → Bool)
    (startNonce nonceRange fuel c : Nat) (hbound : startNonce + nonceRange < 2 ^ 64)
    (hc : c ∈ (worker challengeData pfx stopClosed chanFree startNonce nonceRange fuel).hashed) :
    startNonce ≤ c ∧ c < startNonce + nonceRange :=
  workerLoop_hashed_window challengeData pfx stopClosed chanFree startNonce nonceRange fuel
    hbound 0 startNonce sha256.New c hc

theorem SHA256Algorithm.VerifySolution_of_neg (challengeData solution : String)
    (difficulty : Int) (hd : difficulty < 0) :
    SHA256Algorithm.VerifySolution challengeData solution difficulty =
      .error (.panic "strings: negative Repeat count") := by
  simp only [SHA256Algorithm.VerifySolution, strings.Repeat, hd, if_true]

/-- C6. For every seed and difficulty `d ≥ 0`, with `pfx` the string
`strings.Repeat("0", d)` that `findSolution` hands to its workers: the test that
`worker` performs on a nonce (on whatever state its hash object is in) is true
exactly when `SHA256Algorithm.VerifySolution` accepts the decimal string of that
nonce; hence every solution a worker publishes is accepted by
`SHA256Algorithm.VerifySolution`. -/
theorem worker_check_is_verifySolution (challengeData : String) (difficulty : Int)
    (hd : 0 ≤ difficulty) :
    ∃ pfx, strings.Repeat "0" difficulty = .ok pfx ∧
      (∀ (hash : sha256.Digest) (nonce : Nat),
        SHA256Algorithm.VerifySolution challengeData (toString nonce) difficulty =
          .ok (workerCheck hash challengeData pfx nonce).1) ∧
      (∀ (stopClosed chanFree : Nat → Bool) (startNonce nonceRange fuel : Nat)
          (solution : String),
        (worker challengeData pfx stopClosed chanFree startNonce nonceRange fuel).exit =
            some (.published solution) →
          SHA256Algorithm.VerifySolution challengeData solution difficulty = .ok true) := by
  refine ⟨_, strings.Repeat_zero_of_nonneg difficulty hd, ?_, ?_⟩
  · intro hash nonce
    rw [workerCheck_fst, SHA256Algorithm.VerifySolution_eq _ _ _ hd]
  · intro stopClosed chanFree startNonce nonceRange fuel solution h
    obtain ⟨m, rfl, hm⟩ := workerLoop_published challengeData _ stopClosed chanFree startNonce
      nonceRange fuel 0 startNonce sha256.New solution h
    rw [SHA256Algorithm.VerifySolution_eq _ _ _ hd, hm]

/-- Instance of C6 at `fixtureSeed`, difficulty 4: the worker's test on nonce
`146702` is the issuer's verdict on the solution `146702`. -/
theorem worker_check_is_verifySolution_witness :
    ∃ pfx, strings.Repeat "0" 4 = .ok pfx ∧
      SHA256Algorithm.VerifySolution fixtureSeed (toString 146702) 4 =
        .ok (workerCheck sha256.New fixtureSeed pfx 146702).1 :=
  (worker_check_is_verifySolution fixtureSeed 4 (by decide)).imp
    fun _ h => ⟨h.1, h.2.1 sha256.New 146702⟩

/-- C10. When `startNonce + nonceRange` reaches `2^64` the exit bound of `worker`
wraps to a value not above `startNonce`, and the worker returns in its first
iteration: it hashes no candidate and publishes nothing. With
`R = nonceRange n` this happens to the last worker, `i = n - 1`, whenever its
offset is at least `2^64 - n*R`; that threshold is 2 for two workers and 8 for
eight. -/
theorem worker_returns_at_once_when_bound_wraps (challengeData pfx : String)
    (stopClosed chanFree : Nat → Bool) (fuel : Nat) :
    (∀ startNonce nonceRange : Nat, startNonce < 2 ^ 64 → 0 < nonceRange →
      nonceRange < 2 ^ 64 → 2 ^ 64 ≤ startNonce + nonceRange →
        (startNonce + nonceRange) % 2 ^ 64 ≤ startNonce ∧
        worker challengeData pfx stopClosed chanFree startNonce nonceRange (fuel + 1) =
          ⟨[], some (if stopClosed 0 then .stopped else .rangeExceeded)⟩) ∧
    (∀ n offset : Int, 1 ≤ n → n < 2 ^ 63 → 0 ≤ offset →
      offset < findSolution.nonceRange n →
      2 ^ 64 - n * findSolution.nonceRange n ≤ offset →
        2 ^ 64 ≤ findSolution.startNonceAt (findSolution.nonceRange n) (n - 1) offset +
          findSolution.nonceRange n ∧
        worker challengeData pfx stopClosed chanFree
            (findSolution.startNonceAt (findSolution.nonceRange n) (n - 1) offset)
            (findSolution.nonceRange n) (fuel + 1) =
          ⟨[], some (if stopClosed 0 then .stopped else .rangeExceeded)⟩) ∧
    2 ^ 64 - 2 * findSolution.nonceRange 2 = 2 ∧
    2 ^ 64 - 8 * findSolution.nonceRange 8 = 8 := by
  have hwrap : ∀ startNonce nonceRange : Nat, startNonce < 2 ^ 64 → 0 < nonceRange →
      nonceRange < 2 ^ 64 → 2 ^ 64 ≤ startNonce + nonceRange →
        (startNonce + nonceRange) % 2 ^ 64 ≤ startNonce ∧
        worker challengeData pfx stopClosed chanFree startNonce nonceRange (fuel + 1) =
          ⟨[], some (if stopClosed 0 then .stopped else .rangeExceeded)⟩ := by
    intro startNonce nonceRange hs _ hr hsum
    have hbound : (startNonce + nonceRange) % 2 ^ 64 ≤ startNonce := by omega
    refine ⟨hbound, ?_⟩
    unfold worker workerLoop
    cases hstop : stopClosed 0
    · simp only [Bool.false_eq_true, if_false, hbound, if_true]
    · simp only [if_true]
  refine ⟨hwrap, ?_, by decide, by decide⟩
  intro n offset hn1 hn2 ho0 ho hthr
  have hat := findSolution.startNonceAt_eq n (n - 1) offset hn1 hn2 (by omega) (by omega) ho0 ho
  have hRlt : findSolution.nonceRange n < 2 ^ 64 := by
    have := findSolution.nonceRange_mul_le n hn1 hn2
    have := Nat.le_mul_of_pos_right (findSolution.nonceRange n) (show 0 < n.toNat by omega)
    omega
  have hsucc : (n - 1).toNat + 1 = n.toNat := by omega
  have hsum : 2 ^ 64 ≤ findSolution.startNonceAt (findSolution.nonceRange n) (n - 1) offset +
      findSolution.nonceRange n := by
    rw [hat.1]
    have hmul : findSolution.nonceRange n * (n - 1).toNat + findSolution.nonceRange n =
        findSolution.nonceRange n * n.toNat := by
      rw [← hsucc]; ring
    have hcast : (n * (findSolution.nonceRange n : Int)) =
        ((findSolution.nonceRange n * n.toNat : Nat) : Int) := by
      push_cast
      rw [Int.toNat_of_nonneg (by omega)]
      ring
    rw [hcast] at hthr
    omega
  have hslt : findSolution.startNonceAt (findSolution.nonceRange n) (n - 1) offset < 2 ^ 64 := by
    rw [hat.1]
    have := hat.2.1
    have := hat.2.2
    omega
  exact ⟨hsum, (hwrap _ _ hslt (findSolution.nonceRange_pos n hn1 hn2) hRlt hsum).2⟩

/-- Instance of C10: two workers, the second with offset 2; its start
`2^63 + 1` plus the range `2^63 - 1` is `2^64`, and it returns at once. -/
theorem worker_returns_at_once_when_bound_wraps_witness :
    (2 : Int) ^ 64 - 2 * findSolution.nonceRange 2 ≤ 2 ∧
    findSolution.startNonceAt (findSolution.nonceRange 2) (2 - 1) 2 = 9223372036854775809 ∧
    worker fixtureSeed "00000" (fun _ => false) (fun _ => true)
        (findSolution.startNonceAt (findSolution.nonceRange 2) (2 - 1) 2)
        (findSolution.nonceRange 2) (0 + 1) =
      ⟨[], some .rangeExceeded⟩ :=
  ⟨by decide, by decide,
   ((worker_returns_at_once_when_bound_wraps fixtureSeed "00000" (fun _ => false)
      (fun _ => true) 0).2.1 2 2 (by decide) (by decide) (by decide) (by decide)
      (by decide)).2⟩

set_option maxRecDepth 100000 in
/-- C9, evaluated. Two workers on `fixtureSeed` at difficulty 5, worker 0 drawing
the offset `R - 1` and worker 1 the offset 0, where `R = 2^63 - 1`: worker 0
starts at `R - 1`, inside its sub-range `[0, R)`, and its second candidate is
`R`, outside that sub-range; worker 1 starts at `R`, so both hash the
candidate `R`. -/
theorem worker_leaves_own_subrange :
    findSolution.nonceRange 2 = 9223372036854775807 ∧
    findSolution.starts 2 (fun i => if i = 0 then 9223372036854775806 else 0) =
      .ok [(0, 9223372036854775806), (1, 9223372036854775807)] ∧
    (worker fixtureSeed "00000" (fun _ => false) (fun _ => true) 9223372036854775806
        (findSolution.nonceRange 2) 2).hashed = [9223372036854775806, 9223372036854775807] ∧
    (worker fixtureSeed "00000" (fun _ => false) (fun _ => true) 9223372036854775807
        (findSolution.nonceRange 2) 1).hashed = [9223372036854775807] ∧
    ¬ (9223372036854775807 < findSolution.nonceRange 2 * (0 + 1)) := by
  decide

end Powrl
